import Mathlib

/-!
Verification development for the el-ltp-tools cosmic-ray detection and
multi-image combination pipeline (`el_ltp_tools/util/cosmic.py` and
`el_ltp_tools/image_combine/__init__.py`, with the older variant in
`src/cosmic.py`).

Images are 2D arrays of float64 samples.  We model a pixel value as
`Option ℚ`: `some q` is an ordinary (exact) value, `none` is IEEE NaN.
Every numpy comparison with NaN is false, which the `Option`-aware
comparison helpers below reproduce.  Arithmetic inside the detector only
ever happens on arrays in which NaN has already been replaced by `0`
(`np.where(positive_mask, data, 0)`), so it stays in ℚ; the one place a real
square root appears (`local_std`) is handled by an exact rational decision
procedure for the comparisons the source makes with it, proved equivalent to
the `Real.sqrt` formulation (`qltMulSqrt_iff`, `zExceeds_iff`).
-/

/-- A pixel value: `some q` is an ordinary float64 value (idealised as an
exact rational), `none` is NaN. -/
abbrev Val := Option ℚ

/-- A 2D image: dimensions plus the pixel values.  `val` is total; only the
indices below `rows`/`cols` are meaningful, and the reflect boundary policy
keeps every actual access inside that range. -/
structure Image where
  rows : ℕ
  cols : ℕ
  val : ℕ → ℕ → Val

/-- A boolean mask, same indexing convention as `Image`. -/
abbrev Mask := ℕ → ℕ → Bool

/-- The default image used for out-of-range list access (never actually
selected in the theorems, which carry the needed bounds). -/
def dfltImg : Image := ⟨0, 0, fun _ _ => none⟩

/-- The numpy comparison `x > 0` on a pixel value: false for NaN. -/
def isPos (x : Val) : Bool :=
  match x with
  | some q => decide (0 < q)
  | none => false

/-- The numpy comparison `x > t` on a pixel value: false for NaN. -/
def vGt (x : Val) (t : ℚ) : Bool :=
  match x with
  | some q => decide (t < q)
  | none => false

/-- The value of `np.where(positive_mask, data, 0)` at one pixel: non-positive
values (and NaN, which fails `> 0`) are replaced by `0`. -/
def posQ (x : Val) : ℚ :=
  match x with
  | some q => if 0 < q then q else 0
  | none => 0

/-- The raw rational value of a pixel; only ever read at pixels that passed
`positive_mask`, where the value cannot be NaN. -/
def dataQ (x : Val) : ℚ :=
  match x with
  | some q => q
  | none => 0

/-- Index reflection of `scipy.ndimage`'s default boundary mode `reflect`
(`(d c b a | a b c d | d c b a)`): periodic with period `2*n`, folded back at
the edges. -/
def reflectIdx (n : ℕ) (i : ℤ) : ℕ :=
  if n = 0 then 0
  else
    let m := (i % (2 * (n : ℤ))).toNat
    if m < n then m else 2 * n - 1 - m

/-- Sum of `f` over the `w × w` window centred (for odd `w`) at `(r, c)`,
with scipy's `reflect` boundary handling.  `scipy.ndimage.uniform_filter`
with `size=w` places the window at offsets `-(w/2) … w - w/2 - 1`. -/
def windowSum (img : Image) (f : Val → ℚ) (w : ℕ) (r c : ℕ) : ℚ :=
  ((List.range w).map fun a : ℕ =>
    ((List.range w).map fun b : ℕ =>
      f (img.val (reflectIdx img.rows ((r : ℤ) + (a : ℤ) - ((w / 2 : ℕ) : ℤ)))
                 (reflectIdx img.cols ((c : ℤ) + (b : ℤ) - ((w / 2 : ℕ) : ℤ))))).sum).sum

/-- `uniform_filter(positive_mask.astype(float), size=w)` at one pixel: the
window mean of the positivity indicator. -/
def countPositive (img : Image) (w : ℕ) (r c : ℕ) : ℚ :=
  windowSum img (fun v => if isPos v then 1 else 0) w r c / ((w : ℚ) ^ 2)

/-- `uniform_filter(data_positive, size=w)` at one pixel: the window mean of
the zero-clamped data. -/
def sumPositive (img : Image) (w : ℕ) (r c : ℕ) : ℚ :=
  windowSum img posQ w r c / ((w : ℚ) ^ 2)

/-- `uniform_filter(data_positive**2, size=w)` at one pixel. -/
def sumSquares (img : Image) (w : ℕ) (r c : ℕ) : ℚ :=
  windowSum img (fun v => posQ v ^ 2) w r c / ((w : ℚ) ^ 2)

/-- `local_mean = np.where(count_positive > 0, sum_positive / count_positive, 0)`. -/
def localMean (img : Image) (w : ℕ) (r c : ℕ) : ℚ :=
  if 0 < countPositive img w r c then sumPositive img w r c / countPositive img w r c
  else 0

/-- `local_var = np.where(count_positive > 0, sum_squares / count_positive - local_mean**2, 0)`. -/
def localVar (img : Image) (w : ℕ) (r c : ℕ) : ℚ :=
  if 0 < countPositive img w r c then
    sumSquares img w r c / countPositive img w r c - localMean img w r c ^ 2
  else 0

/-- The `1e-10` guard added to `local_std` in the z-score denominator. -/
def eps : ℚ := 1 / 10 ^ 10

/-- Decides `s * Real.sqrt M < A` for rationals (`M ≥ 0`) by sign analysis
and squaring; `qltMulSqrt_iff` below proves it equal to the real-number
comparison, which lets the detector stay executable although the source
computes `np.sqrt` on floats. -/
def qltMulSqrt (A s M : ℚ) : Bool :=
  if 0 ≤ s then
    if 0 ≤ A then decide (s ^ 2 * M < A ^ 2) else false
  else
    if 0 ≤ A then decide (0 < A ∨ 0 < M) else decide (A ^ 2 < s ^ 2 * M)

/-- `valid_mask = np.logical_and(positive_mask, local_std > 0)`.
Because `local_std = sqrt(max(local_var, 0))`, the test `local_std > 0` is
exactly `0 < local_var` (see `validAt_iff`). -/
def validAt (img : Image) (w : ℕ) (r c : ℕ) : Bool :=
  isPos (img.val r c) && decide (0 < localVar img w r c)

/-- The comparison `z_scores > sigma` at a pixel of `valid_mask`, where
`z = (data - local_mean) / (local_std + 1e-10)`: equivalent (over ℝ, see
`zExceeds_iff`) to `sigma * local_std < data - local_mean - sigma * eps`. -/
def zExceeds (img : Image) (σ : ℚ) (w : ℕ) (r c : ℕ) : Bool :=
  qltMulSqrt (dataQ (img.val r c) - localMean img w r c - σ * eps) σ
    (max (localVar img w r c) 0)

/-- The comparison `z_scores > sigma` at an arbitrary pixel: outside
`valid_mask` the z-score array keeps its `np.zeros_like` value `0`. -/
def zFlag (img : Image) (σ : ℚ) (w : ℕ) (r c : ℕ) : Bool :=
  if validAt img w r c = true then zExceeds img σ w r c else decide ((0 : ℚ) > σ)

/-- The z-score the source stores at one pixel, read over ℝ:
`(data - local_mean) / (local_std + 1e-10)` where
`local_std = np.sqrt(np.maximum(local_var, 0))`, for `valid_mask` pixels, and
the `np.zeros_like` value `0` elsewhere. -/
noncomputable def zScoreR (img : Image) (w : ℕ) (r c : ℕ) : ℝ :=
  if validAt img w r c = true then
    ((dataQ (img.val r c) - localMean img w r c : ℚ) : ℝ) /
      (Real.sqrt ((max (localVar img w r c) 0 : ℚ) : ℝ) + ((eps : ℚ) : ℝ))
  else 0

/-- Embedding of `detect_cosmic_rays` (`el_ltp_tools/util/cosmic.py`), one
pixel at a time:
`((z_scores > sigma ∧ positive) ∨ (data > 2*local_mean ∧ positive)) ∧ data > min_intensity`. -/
def detect_cosmic_rays (img : Image) (σ : ℚ) (w : ℕ) (minI : ℚ) : Mask :=
  fun r c =>
    ((zFlag img σ w r c && isPos (img.val r c)) ||
      (vGt (img.val r c) (2 * localMean img w r c) && isPos (img.val r c))) &&
    vGt (img.val r c) minI

/-- State-threaded reading of `detect_cosmic_rays`: every numpy operation in
its body allocates a fresh array and the single in-place assignment
(`z_scores[valid_mask] = …`) targets the freshly created `z_scores`; no
statement assigns into `data`, so the embedding returns the input array
untouched next to the mask. -/
def detectRun (img : Image) (σ : ℚ) (w : ℕ) (minI : ℚ) : Image × Mask :=
  let data := img
  let combined_mask := detect_cosmic_rays data σ w minI
  (data, combined_mask)

/-- `image[mask] = np.nan` as a fresh image (the source mutates in place; the
embedding rebinds). -/
def applyNaN (im : Image) (m : Mask) : Image :=
  ⟨im.rows, im.cols, fun r c => if m r c then none else im.val r c⟩

/-- `np.sum(mask)`: the number of `true` entries. -/
def maskCount (m : Mask) (rows cols : ℕ) : ℕ :=
  ((List.range rows).map fun r =>
    ((List.range cols).map fun c => if m r c then 1 else 0).sum).sum

/-- The loop state of `detect_cosmic_rays_multiple_iterations` (and of the
identical per-image loop `get_cosmic_mask` inside
`combine_images_in_directory`): the progressively NaN'd working image, the
accumulated mask, and the per-round diagnostic counts. -/
structure IterSt where
  image : Image
  mask : Mask
  counts : List ℕ

/-- One round of the iterative remover: detect on the current image, NaN the
flagged pixels, OR the mask into the accumulator, append the round's count. -/
def iterStep (σ : ℚ) (w : ℕ) (minI : ℚ) (s : IterSt) : IterSt :=
  let m := detect_cosmic_rays s.image σ w minI
  ⟨applyNaN s.image m, fun r c => s.mask r c || m r c,
    s.counts ++ [maskCount m s.image.rows s.image.cols]⟩

/-- The loop state after `n` rounds, starting from the float copy of the
input, an all-false accumulated mask and an empty count list. -/
def iterState (im : Image) (σ : ℚ) (w : ℕ) (minI : ℚ) : ℕ → IterSt
  | 0 => ⟨im, fun _ _ => false, []⟩
  | n + 1 => iterStep σ w minI (iterState im σ w minI n)

/-- The mask produced by round `k` (0-based) of the iterative remover: the
detector applied to the working image as it stands entering that round. -/
def roundMask (im : Image) (σ : ℚ) (w : ℕ) (minI : ℚ) (k : ℕ) : Mask :=
  detect_cosmic_rays (iterState im σ w minI k).image σ w minI

/-- Embedding of `detect_cosmic_rays_multiple_iterations`
(`el_ltp_tools/util/cosmic.py`): the combined mask returned after
`iters` rounds. -/
def detect_cosmic_rays_multiple_iterations (im : Image) (σ : ℚ) (w : ℕ)
    (iters : ℕ) (minI : ℚ) : Mask :=
  (iterState im σ w minI iters).mask

/-- Embedding of `apply_threshold` (`src/cosmic.py`, the older variant): if
`sigma` is `None` the data is returned untouched, otherwise the NaN'd working
image after `iters` rounds is returned. -/
def apply_threshold (im : Image) (σ : Option ℚ) (w : ℕ) (iters : ℕ)
    (minI : ℚ) : Image :=
  match σ with
  | none => im
  | some s => (iterState im s w minI iters).image

/-- The error that escapes `combine_images_in_directory` before any
processing: `noFiles` is the `FileNotFoundError` raised for an empty group.
No other precondition is validated up front — in particular a shape mismatch
raises nothing here; see `combine_images_in_directory`. -/
inductive CombineErr
  | noFiles
deriving DecidableEq

/-- Shape agreement across a group.  The source never checks this; it is the
well-formedness condition under which the pointwise model of the combination
step coincides with the numpy arrays, and every theorem below that reads the
combined output assumes it. -/
def sameShapes (l : List Image) : Bool :=
  l.all fun im =>
    (im.rows == (l.headD dfltImg).rows) && (im.cols == (l.headD dfltImg).cols)

/-- `np.nanmean` over one pixel slot of a stack: the mean of the non-NaN
entries, NaN if there are none (numpy's "mean of empty slice"). -/
def nanmean (l : List Val) : Val :=
  let xs := l.filterMap id
  if xs.isEmpty then none else some (xs.sum / (xs.length : ℚ))

/-- NaN-propagating addition, as in `np.sum` along the image stack. -/
def addV (a b : Val) : Val :=
  match a, b with
  | some x, some y => some (x + y)
  | _, _ => none

/-- `np.sum(stack, axis=0)` at one pixel slot. -/
def sumV (l : List Val) : Val := l.foldr addV (some 0)

/-- The per-image processing of `get_cosmic_mask` inside
`combine_images_in_directory`: identical mechanics to
`detect_cosmic_rays_multiple_iterations`, and — crucially — it NaNs the
array of `imgs_data` in place, which the embedding renders by keeping the
NaN'd image in the state. -/
def groupProc (imgs : List Image) (σ : ℚ) (w : ℕ) (iters : ℕ) (minI : ℚ)
    (i : ℕ) : IterSt :=
  iterState (imgs.getD i dfltImg) σ w minI iters

/-- The accumulated cosmic-ray mask of image `i` of the group. -/
def groupMask (imgs : List Image) (σ : ℚ) (w : ℕ) (iters : ℕ) (minI : ℚ)
    (i : ℕ) : Mask :=
  (groupProc imgs σ w iters minI i).mask

/-- `imgs_data_nan[i] = np.where(cosmic_masks[i], np.nan, imgs_data[i])` at one
pixel (`imgs_data[i]` is the already-NaN'd working array). -/
def groupNanVal (imgs : List Image) (σ : ℚ) (w : ℕ) (iters : ℕ) (minI : ℚ)
    (i r c : ℕ) : Val :=
  if groupMask imgs σ w iters minI i r c then none
  else (groupProc imgs σ w iters minI i).image.val r c

/-- The cross-image replacement value for image `i` at a pixel:
`np.nanmean([imgs_data_nan[j] for j != i], axis=0)`. -/
def substVal (imgs : List Image) (σ : ℚ) (w : ℕ) (iters : ℕ) (minI : ℚ)
    (i r c : ℕ) : Val :=
  nanmean (((List.range imgs.length).filter fun j => j ≠ i).map
    fun j => groupNanVal imgs σ w iters minI j r c)

/-- The corrected value of image `i` at a pixel:
`np.where(cosmic_masks[i], nanmean-of-others if len > 1 else imgs_data[i], imgs_data[i])`.
Both `imgs_data[i]` occurrences are the post-mutation (NaN'd) array. -/
def outVal (imgs : List Image) (σ : ℚ) (w : ℕ) (iters : ℕ) (minI : ℚ)
    (i r c : ℕ) : Val :=
  if groupMask imgs σ w iters minI i r c then
    if 1 < imgs.length then substVal imgs σ w iters minI i r c
    else (groupProc imgs σ w iters minI i).image.val r c
  else (groupProc imgs σ w iters minI i).image.val r c

/-- The diagnostic log printed by `combine_images_in_directory`: one
per-round count list per image, emitted while the masks are computed (before
any cross-image arithmetic). -/
def combineLog (imgs : List Image) (σ : ℚ) (w : ℕ) (iters : ℕ) (minI : ℚ) :
    List (List ℕ) :=
  (List.range imgs.length).map fun i => (groupProc imgs σ w iters minI i).counts

/-- The summed, corrected image `np.sum(imgs_data, axis=0)`. -/
def combineOut (imgs : List Image) (σ : ℚ) (w : ℕ) (iters : ℕ) (minI : ℚ) :
    Image :=
  ⟨(imgs.headD dfltImg).rows, (imgs.headD dfltImg).cols,
    fun r c => sumV ((List.range imgs.length).map
      fun i => outVal imgs σ w iters minI i r c)⟩

/-- Embedding of `combine_images_in_directory`
(`el_ltp_tools/image_combine/__init__.py`), from the point where the group's
images have been decoded (directory listing and TIFF decoding are external
I/O).  Returns the diagnostic log together with the outcome.  An empty group
raises `FileNotFoundError` before anything else; no other precondition is
validated — in particular shapes are never compared, so the per-image masks
(and their printed diagnostics) are always computed, and the combination
step then runs on whatever arrays it is handed.  The output image is
modeled pointwise, which renders the source exactly when all images share
one shape — the scope of every theorem below that reads the output.  What
numpy broadcasting makes of a mismatched group (a silently returned
wrong-shape broadcast sum when the shapes are compatible, a `ValueError`
deep inside the arithmetic when they are not) is outside the model, and no
theorem reads the output of a mismatched group. -/
def combine_images_in_directory (imgs : List Image) (σ : ℚ) (w : ℕ)
    (iters : ℕ) (minI : ℚ) : List (List ℕ) × Except CombineErr Image :=
  if imgs.length = 0 then ([], Except.error CombineErr.noFiles)
  else
    (combineLog imgs σ w iters minI, Except.ok (combineOut imgs σ w iters minI))

/-- The value the combined result holds at `(r, c)`: `some v` when the call
succeeded with pixel value `v` (itself `none` when that pixel is NaN), `none`
when the call raised. -/
def outputAt (res : List (List ℕ) × Except CombineErr Image) (r c : ℕ) :
    Option Val :=
  match res.2 with
  | Except.ok im => some (im.val r c)
  | Except.error _ => none

/-- A constant-valued image. -/
def constImg (rows cols : ℕ) (v : ℚ) : Image := ⟨rows, cols, fun _ _ => some v⟩

/-- A 2×2 image that is 1 everywhere except a spike of 100 at `(0, 0)`. -/
def spikeImg : Image :=
  ⟨2, 2, fun r c => if r = 0 ∧ c = 0 then some 100 else some 1⟩

/-- A 2×2 flat image of value 10. -/
def flatImg : Image := constImg 2 2 10

/-- A 1×1 flat image of value 10 (shape-mismatched with `flatImg`). -/
def tinyImg : Image := constImg 1 1 10

/-! ### List helpers -/

theorem addV_none_left (b : Val) : addV none b = none := by cases b <;> rfl

theorem addV_none_right (a : Val) : addV a none = none := by cases a <;> rfl

theorem sumV_cons (a : Val) (t : List Val) : sumV (a :: t) = addV a (sumV t) := rfl

theorem list_sum_map_const {α : Type} (l : List α) (x : ℚ) :
    (l.map fun _ => x).sum = (l.length : ℚ) * x := by
  induction l with
  | nil => simp
  | cons a t ih =>
    rw [List.map_cons, List.sum_cons, ih, List.length_cons]
    push_cast
    ring

theorem sumV_of_mem_none {l : List Val} (h : none ∈ l) : sumV l = none := by
  induction l with
  | nil => simp at h
  | cons a t ih =>
    rw [sumV_cons]
    rcases List.mem_cons.mp h with ha | ht
    · rw [← ha]
      exact addV_none_left _
    · rw [ih ht]
      exact addV_none_right _

theorem sumV_all_some {l : List Val} {x : ℚ} (h : ∀ v ∈ l, v = some x) :
    sumV l = some ((l.length : ℚ) * x) := by
  induction l with
  | nil => simp [sumV]
  | cons a t ih =>
    have ha := h a (List.mem_cons_self a t)
    have ht := ih fun v hv => h v (List.mem_cons_of_mem _ hv)
    rw [sumV_cons, ha, ht, addV, List.length_cons]
    congr 1
    push_cast
    ring

theorem filterMap_all_some {l : List Val} {x : ℚ} (h : ∀ v ∈ l, v = some x) :
    l.filterMap id = l.map fun _ => x := by
  induction l with
  | nil => simp
  | cons a t ih =>
    have ha := h a (List.mem_cons_self a t)
    have ht := ih fun v hv => h v (List.mem_cons_of_mem _ hv)
    simp [List.filterMap_cons, ha, ht]

theorem nanmean_all_some {l : List Val} {x : ℚ} (h : ∀ v ∈ l, v = some x)
    (hne : l ≠ []) : nanmean l = some x := by
  have hfm := filterMap_all_some h
  have hlenq : ((l.length : ℚ)) ≠ 0 := by
    have : l.length ≠ 0 := fun he => hne (List.length_eq_zero.mp he)
    exact_mod_cast this
  simp only [nanmean, hfm, List.length_map, list_sum_map_const]
  rw [if_neg]
  · congr 1
    field_simp
  · simp only [List.isEmpty_iff, List.map_eq_nil_iff]
    exact hne

theorem nanmean_all_none {l : List Val} (h : ∀ v ∈ l, v = none) :
    nanmean l = none := by
  have hfm : l.filterMap id = [] := by
    induction l with
    | nil => simp
    | cons a t ih =>
      have ha := h a (List.mem_cons_self a t)
      simp [List.filterMap_cons, ha, ih fun v hv => h v (List.mem_cons_of_mem _ hv)]
  simp [nanmean, hfm]

theorem map_range_getD {α β : Type} (l : List α) (d : α) (f : α → β) :
    (List.range l.length).map (fun i => f (l.getD i d)) = l.map f := by
  induction l with
  | nil => simp
  | cons a t ih =>
    rw [List.length_cons, List.range_succ_eq_map, List.map_cons, List.map_map,
      List.map_cons]
    simp only [List.getD_cons_zero]
    have hcomp : ((fun i => f ((a :: t).getD i d)) ∘ Nat.succ) =
        fun i => f (t.getD i d) := by
      funext i
      simp [List.getD_cons_succ]
    rw [hcomp, ih]

/-! ### The square-root bridge: the rational decision procedures agree with
the `Real.sqrt` reading of the source. -/

theorem qltMulSqrt_iff (A s M : ℚ) (hM : 0 ≤ M) :
    qltMulSqrt A s M = true ↔ (s : ℝ) * Real.sqrt (M : ℝ) < (A : ℝ) := by
  have hM' : (0 : ℝ) ≤ (M : ℝ) := by exact_mod_cast hM
  have ht0 : 0 ≤ Real.sqrt (M : ℝ) := Real.sqrt_nonneg _
  have ht2 : Real.sqrt (M : ℝ) ^ 2 = (M : ℝ) := Real.sq_sqrt hM'
  unfold qltMulSqrt
  by_cases hs : (0 : ℚ) ≤ s <;> by_cases hA : (0 : ℚ) ≤ A
  · have hs' : (0 : ℝ) ≤ (s : ℝ) := by exact_mod_cast hs
    have hA' : (0 : ℝ) ≤ (A : ℝ) := by exact_mod_cast hA
    have hst : 0 ≤ (s : ℝ) * Real.sqrt (M : ℝ) := mul_nonneg hs' ht0
    simp only [hs, hA, if_true, decide_eq_true_iff]
    constructor
    · intro h
      have h' : (s : ℝ) ^ 2 * (M : ℝ) < (A : ℝ) ^ 2 := by exact_mod_cast h
      have hsq : ((s : ℝ) * Real.sqrt (M : ℝ)) ^ 2 < (A : ℝ) ^ 2 := by
        rw [mul_pow, ht2]
        exact h'
      exact lt_of_pow_lt_pow_left₀ 2 hA' hsq
    · intro h
      have hsq : ((s : ℝ) * Real.sqrt (M : ℝ)) ^ 2 < (A : ℝ) ^ 2 :=
        pow_lt_pow_left₀ h hst (by norm_num)
      rw [mul_pow, ht2] at hsq
      exact_mod_cast hsq
  · have hA' : (A : ℝ) < 0 := by
      have : A < 0 := lt_of_not_ge hA
      exact_mod_cast this
    have hst : 0 ≤ (s : ℝ) * Real.sqrt (M : ℝ) :=
      mul_nonneg (by exact_mod_cast hs) ht0
    simp only [hs, hA, if_true, if_false]
    constructor
    · intro h
      exact absurd h (by simp)
    · intro h
      exact absurd h (by push_neg; linarith)
  · have hs' : (s : ℝ) < 0 := by
      have : s < 0 := lt_of_not_ge hs
      exact_mod_cast this
    have hA' : (0 : ℝ) ≤ (A : ℝ) := by exact_mod_cast hA
    simp only [hs, hA, if_true, if_false, decide_eq_true_iff]
    constructor
    · rintro (h0A | h0M)
      · have h0A' : (0 : ℝ) < (A : ℝ) := by exact_mod_cast h0A
        have : (s : ℝ) * Real.sqrt (M : ℝ) ≤ 0 :=
          mul_nonpos_of_nonpos_of_nonneg (le_of_lt hs') ht0
        linarith
      · have h0M' : (0 : ℝ) < (M : ℝ) := by exact_mod_cast h0M
        have htpos : 0 < Real.sqrt (M : ℝ) := Real.sqrt_pos.mpr h0M'
        have : (s : ℝ) * Real.sqrt (M : ℝ) < 0 := mul_neg_of_neg_of_pos hs' htpos
        linarith
    · intro h
      by_contra hc
      push_neg at hc
      have hA0 : A = 0 := le_antisymm hc.1 hA
      have hM0 : M = 0 := le_antisymm hc.2 hM
      rw [hA0, hM0] at h
      simp at h
  · have hs' : (s : ℝ) < 0 := by
      have : s < 0 := lt_of_not_ge hs
      exact_mod_cast this
    have hA' : (A : ℝ) < 0 := by
      have : A < 0 := lt_of_not_ge hA
      exact_mod_cast this
    have hnegs : 0 ≤ -(s : ℝ) := by linarith
    have hnegA : 0 ≤ -(A : ℝ) := by linarith
    simp only [hs, hA, if_false, decide_eq_true_iff]
    constructor
    · intro h
      have h' : (A : ℝ) ^ 2 < (s : ℝ) ^ 2 * (M : ℝ) := by exact_mod_cast h
      have hsq : (-(A : ℝ)) ^ 2 < (-(s : ℝ) * Real.sqrt (M : ℝ)) ^ 2 := by
        rw [mul_pow, neg_pow, neg_pow, ht2]
        simpa using h'
      have := lt_of_pow_lt_pow_left₀ 2 (mul_nonneg hnegs ht0) hsq
      linarith
    · intro h
      have hlt : -(A : ℝ) < -(s : ℝ) * Real.sqrt (M : ℝ) := by linarith
      have hsq : (-(A : ℝ)) ^ 2 < (-(s : ℝ) * Real.sqrt (M : ℝ)) ^ 2 :=
        pow_lt_pow_left₀ hlt hnegA (by norm_num)
      rw [mul_pow, neg_pow, neg_pow, ht2] at hsq
      have h' : (A : ℝ) ^ 2 < (s : ℝ) ^ 2 * (M : ℝ) := by simpa using hsq
      exact_mod_cast h'

theorem zExceeds_iff (img : Image) (σ : ℚ) (w : ℕ) (r c : ℕ) :
    zExceeds img σ w r c = true ↔
      (σ : ℝ) < ((dataQ (img.val r c) - localMean img w r c : ℚ) : ℝ) /
        (Real.sqrt ((max (localVar img w r c) 0 : ℚ) : ℝ) + ((eps : ℚ) : ℝ)) := by
  have hM : (0 : ℚ) ≤ max (localVar img w r c) 0 := le_max_right _ _
  unfold zExceeds
  rw [qltMulSqrt_iff _ _ _ hM]
  set t := Real.sqrt ((max (localVar img w r c) 0 : ℚ) : ℝ) with htdef
  have ht0 : 0 ≤ t := Real.sqrt_nonneg _
  have heps : (0 : ℝ) < ((eps : ℚ) : ℝ) := by norm_num [eps]
  have hd : 0 < t + ((eps : ℚ) : ℝ) := by linarith
  rw [lt_div_iff₀ hd]
  have hcast : ((dataQ (img.val r c) - localMean img w r c - σ * eps : ℚ) : ℝ) =
      ((dataQ (img.val r c) - localMean img w r c : ℚ) : ℝ) -
        (σ : ℝ) * ((eps : ℚ) : ℝ) := by
    push_cast
    ring
  rw [hcast]
  have hexp : (σ : ℝ) * (t + ((eps : ℚ) : ℝ)) =
      (σ : ℝ) * t + (σ : ℝ) * ((eps : ℚ) : ℝ) := by
    ring
  constructor <;> intro h <;> linarith [hexp, h]

theorem validAt_iff (img : Image) (w : ℕ) (r c : ℕ) :
    validAt img w r c = true ↔
      isPos (img.val r c) = true ∧
        0 < Real.sqrt ((max (localVar img w r c) 0 : ℚ) : ℝ) := by
  unfold validAt
  rw [Bool.and_eq_true, decide_eq_true_iff, Real.sqrt_pos]
  constructor <;> rintro ⟨h1, h2⟩ <;> refine ⟨h1, ?_⟩
  · have : (0 : ℚ) < max (localVar img w r c) 0 := lt_max_of_lt_left h2
    exact_mod_cast this
  · have h2' : (0 : ℚ) < max (localVar img w r c) 0 := by exact_mod_cast h2
    rcases lt_max_iff.mp h2' with h | h
    · exact h
    · exact absurd h (lt_irrefl 0)

theorem zFlag_iff (img : Image) (σ : ℚ) (w : ℕ) (r c : ℕ) :
    zFlag img σ w r c = true ↔ (σ : ℝ) < zScoreR img w r c := by
  unfold zFlag zScoreR
  by_cases hv : validAt img w r c = true
  · rw [if_pos hv, if_pos hv]
    exact zExceeds_iff img σ w r c
  · rw [if_neg hv, if_neg hv, decide_eq_true_iff]
    constructor <;> intro h
    · have : σ < 0 := h
      exact_mod_cast this
    · have : (σ : ℝ) < 0 := h
      exact_mod_cast this

/-! ### Detector-level facts -/

theorem detect_at_none (img : Image) (σ : ℚ) (w : ℕ) (minI : ℚ) (r c : ℕ)
    (h : img.val r c = none) : detect_cosmic_rays img σ w minI r c = false := by
  unfold detect_cosmic_rays
  rw [h]
  simp [vGt]

/-- C4: `detect_cosmic_rays` flags a pixel exactly when its value is strictly
positive, exceeds `min_intensity`, and either the z-score the source stores
(computed as `(value - local_mean)/(local_std + 1e-10)` where the pixel is
positive and `local_std > 0`, and forced to `0` elsewhere) exceeds `sigma`,
or the raw value exceeds twice the local mean of positive pixels.  In
particular no non-positive pixel and no pixel at or below `min_intensity` is
ever flagged. -/
theorem c4_detect_characterisation (img : Image) (σ : ℚ) (w : ℕ) (minI : ℚ)
    (r c : ℕ) :
    detect_cosmic_rays img σ w minI r c = true ↔
      isPos (img.val r c) = true ∧ vGt (img.val r c) minI = true ∧
        ((σ : ℝ) < zScoreR img w r c ∨
          vGt (img.val r c) (2 * localMean img w r c) = true) := by
  unfold detect_cosmic_rays
  simp only [Bool.and_eq_true, Bool.or_eq_true, zFlag_iff]
  tauto

/-! ### The iterative remover -/

theorem iterState_dims (im : Image) (σ : ℚ) (w : ℕ) (minI : ℚ) :
    ∀ n, (iterState im σ w minI n).image.rows = im.rows ∧
      (iterState im σ w minI n).image.cols = im.cols := by
  intro n
  induction n with
  | zero => exact ⟨rfl, rfl⟩
  | succ n ih => simpa [iterState, iterStep, applyNaN] using ih

theorem iterState_counts_length (im : Image) (σ : ℚ) (w : ℕ) (minI : ℚ) :
    ∀ n, (iterState im σ w minI n).counts.length = n := by
  intro n
  induction n with
  | zero => rfl
  | succ n ih => simp [iterState, iterStep, ih]

theorem iterState_image_val (im : Image) (σ : ℚ) (w : ℕ) (minI : ℚ) :
    ∀ n r c, (iterState im σ w minI n).image.val r c =
      if (iterState im σ w minI n).mask r c then none else im.val r c := by
  intro n
  induction n with
  | zero => intro r c; rfl
  | succ n ih =>
    intro r c
    simp only [iterState, iterStep, applyNaN]
    by_cases hm :
        detect_cosmic_rays (iterState im σ w minI n).image σ w minI r c = true
    · simp [hm]
    · simp only [Bool.not_eq_true] at hm
      simp [hm, ih r c]

theorem iterState_mask_le (im : Image) (σ : ℚ) (w : ℕ) (minI : ℚ) (r c : ℕ)
    {n m : ℕ} (h : n ≤ m)
    (hmask : (iterState im σ w minI n).mask r c = true) :
    (iterState im σ w minI m).mask r c = true := by
  induction h with
  | refl => exact hmask
  | step h ih => simp [iterState, iterStep, ih]

theorem roundMask_mask_false (im : Image) (σ : ℚ) (w : ℕ) (minI : ℚ)
    (k r c : ℕ) (h : roundMask im σ w minI k r c = true) :
    (iterState im σ w minI k).mask r c = false := by
  by_contra hc
  have hmask : (iterState im σ w minI k).mask r c = true := by
    revert hc
    cases (iterState im σ w minI k).mask r c <;> simp
  have hnone : (iterState im σ w minI k).image.val r c = none := by
    rw [iterState_image_val]
    simp [hmask]
  have hfalse :=
    detect_at_none (iterState im σ w minI k).image σ w minI r c hnone
  unfold roundMask at h
  rw [hfalse] at h
  cases h

theorem iterState_mask_iff (im : Image) (σ : ℚ) (w : ℕ) (minI : ℚ) (r c : ℕ) :
    ∀ n, (iterState im σ w minI n).mask r c = true ↔
      ∃ j, j < n ∧ roundMask im σ w minI j r c = true := by
  intro n
  induction n with
  | zero => simp [iterState]
  | succ n ih =>
    constructor
    · intro h
      have h' : (iterState im σ w minI n).mask r c = true ∨
          roundMask im σ w minI n r c = true := by
        simpa [iterState, iterStep, Bool.or_eq_true, roundMask] using h
      rcases h' with h' | h'
      · obtain ⟨j, hj, hm⟩ := ih.mp h'
        exact ⟨j, Nat.lt_succ_of_lt hj, hm⟩
      · exact ⟨n, Nat.lt_succ_self n, h'⟩
    · rintro ⟨j, hj, hm⟩
      rcases Nat.lt_succ_iff_lt_or_eq.mp hj with hj' | hj'
      · exact iterState_mask_le im σ w minI r c (Nat.le_succ n)
          (ih.mpr ⟨j, hj', hm⟩)
      · have hm' : roundMask im σ w minI n r c = true := hj' ▸ hm
        have hstep : (iterState im σ w minI (n + 1)).mask r c =
            ((iterState im σ w minI n).mask r c ||
              roundMask im σ w minI n r c) := rfl
        rw [hstep, hm']
        simp

theorem iterState_counts_getD (im : Image) (σ : ℚ) (w : ℕ) (minI : ℚ) :
    ∀ n k, k < n → (iterState im σ w minI n).counts.getD k 0 =
      maskCount (roundMask im σ w minI k) im.rows im.cols := by
  intro n
  induction n with
  | zero => intro k hk; exact absurd hk (Nat.not_lt_zero k)
  | succ n ih =>
    intro k hk
    have hd := iterState_dims im σ w minI n
    have hco : (iterState im σ w minI (n + 1)).counts =
        (iterState im σ w minI n).counts ++
          [maskCount (roundMask im σ w minI n) im.rows im.cols] := by
      simp [iterState, iterStep, roundMask, hd.1, hd.2]
    rcases Nat.lt_succ_iff_lt_or_eq.mp hk with hk' | hk'
    · rw [hco, List.getD_append _ _ _ _
        (by rw [iterState_counts_length]; exact hk')]
      exact ih k hk'
    · subst hk'
      rw [hco, List.getD_append_right _ _ _ _
        (by rw [iterState_counts_length])]
      simp [iterState_counts_length]

/-- C9: within one call of the iterative remover, a pixel flagged in round
`k` is NaN in the working image of every later round `l` and cannot be
flagged again there; the per-round diagnostic count of round `k` counts only
newly detected pixels (those not already in the accumulated mask); and the
returned combined mask is the union of the per-round masks. -/
theorem c9_iteration_disjointness (im : Image) (σ : ℚ) (w : ℕ) (minI : ℚ)
    (iters k l r c : ℕ) (hkl : k < l) (hl : l < iters) :
    (roundMask im σ w minI k r c = true →
      (iterState im σ w minI l).image.val r c = none ∧
        roundMask im σ w minI l r c = false) ∧
    (iterState im σ w minI iters).counts.getD k 0 =
      maskCount (fun a b => roundMask im σ w minI k a b &&
        !(iterState im σ w minI k).mask a b) im.rows im.cols ∧
    (detect_cosmic_rays_multiple_iterations im σ w iters minI r c = true ↔
      ∃ j, j < iters ∧ roundMask im σ w minI j r c = true) := by
  refine ⟨?_, ?_, ?_⟩
  · intro hm
    have hmaskl : (iterState im σ w minI l).mask r c = true := by
      apply iterState_mask_le im σ w minI r c (show k + 1 ≤ l from hkl)
      have hstep : (iterState im σ w minI (k + 1)).mask r c =
          ((iterState im σ w minI k).mask r c ||
            roundMask im σ w minI k r c) := rfl
      rw [hstep, hm]
      simp
    have hnone : (iterState im σ w minI l).image.val r c = none := by
      rw [iterState_image_val]
      simp [hmaskl]
    exact ⟨hnone, detect_at_none _ σ w minI r c hnone⟩
  · have hk : k < iters := lt_trans hkl hl
    rw [iterState_counts_getD im σ w minI iters k hk]
    congr 1
    funext a b
    by_cases hr : roundMask im σ w minI k a b = true
    · rw [hr, roundMask_mask_false im σ w minI k a b hr]
      rfl
    · simp only [Bool.not_eq_true] at hr
      rw [hr]
      rfl
  · exact iterState_mask_iff im σ w minI r c iters

/-- Witness for C9 at a concrete instance (a 1×1 image of value 10, two
rounds, rounds 0 and 1). -/
theorem c9_iteration_disjointness_witness :
    (0 : ℕ) < 1 ∧ (1 : ℕ) < 2 ∧
      ((roundMask tinyImg 3 1 0 0 0 0 = true →
        (iterState tinyImg 3 1 0 1).image.val 0 0 = none ∧
          roundMask tinyImg 3 1 0 1 0 0 = false) ∧
      (iterState tinyImg 3 1 0 2).counts.getD 0 0 =
        maskCount (fun a b => roundMask tinyImg 3 1 0 0 a b &&
          !(iterState tinyImg 3 1 0 0).mask a b) tinyImg.rows tinyImg.cols ∧
      (detect_cosmic_rays_multiple_iterations tinyImg 3 1 2 0 0 0 = true ↔
        ∃ j, j < 2 ∧ roundMask tinyImg 3 1 0 j 0 0 = true)) :=
  ⟨by decide, by decide,
    c9_iteration_disjointness tinyImg 3 1 0 2 0 1 0 0 (by decide) (by decide)⟩

/-- C6: run with `iterations = 0`, the iterative remover returns an all-false
combined mask, and the older `apply_threshold` variant returns the image with
every pixel unchanged (for both a present and an absent `sigma`). -/
theorem c6_zero_iterations (im : Image) (σ : ℚ) (σo : Option ℚ) (w : ℕ)
    (minI : ℚ) (r c : ℕ) :
    detect_cosmic_rays_multiple_iterations im σ w 0 minI r c = false ∧
    (apply_threshold im σo w 0 minI).val r c = im.val r c := by
  refine ⟨rfl, ?_⟩
  cases σo <;> rfl

/-- C10: the state-threaded embedding of `detect_cosmic_rays` returns its
input array unchanged: no statement of the source assigns into `data` — the
single in-place assignment targets the freshly allocated `z_scores` — so the
threaded `data` binding is the unmodified input. -/
theorem c10_detect_preserves_input (img : Image) (σ : ℚ) (w : ℕ) (minI : ℚ) :
    (detectRun img σ w minI).1 = img := rfl

/-! ### Constant images -/

theorem windowSum_const (rows cols : ℕ) (v : ℚ) (f : Val → ℚ) (w r c : ℕ) :
    windowSum (constImg rows cols v) f w r c = (w : ℚ) ^ 2 * f (some v) := by
  have hval : ∀ a b : ℕ, (constImg rows cols v).val a b = some v :=
    fun a b => rfl
  unfold windowSum
  simp only [hval, list_sum_map_const, List.length_range]
  ring

theorem countPositive_const (rows cols : ℕ) (v : ℚ) (w r c : ℕ) (hv : 0 < v)
    (hw : 0 < w) : countPositive (constImg rows cols v) w r c = 1 := by
  unfold countPositive
  rw [windowSum_const]
  have hp : isPos (some v) = true := by simp [isPos, hv]
  rw [hp]
  have hw2 : ((w : ℚ)) ^ 2 ≠ 0 := by
    have : (w : ℚ) ≠ 0 := by exact_mod_cast Nat.pos_iff_ne_zero.mp hw
    positivity
  simp
  field_simp

theorem sumPositive_const (rows cols : ℕ) (v : ℚ) (w r c : ℕ) (hv : 0 < v)
    (hw : 0 < w) : sumPositive (constImg rows cols v) w r c = v := by
  unfold sumPositive
  rw [windowSum_const]
  have hp : posQ (some v) = v := by simp [posQ, hv]
  rw [hp]
  have hw2 : ((w : ℚ)) ≠ 0 := by exact_mod_cast Nat.pos_iff_ne_zero.mp hw
  field_simp

theorem sumSquares_const (rows cols : ℕ) (v : ℚ) (w r c : ℕ) (hv : 0 < v)
    (hw : 0 < w) : sumSquares (constImg rows cols v) w r c = v ^ 2 := by
  unfold sumSquares
  rw [windowSum_const]
  have hp : posQ (some v) = v := by simp [posQ, hv]
  rw [hp]
  have hw2 : ((w : ℚ)) ≠ 0 := by exact_mod_cast Nat.pos_iff_ne_zero.mp hw
  field_simp

theorem localMean_const (rows cols : ℕ) (v : ℚ) (w r c : ℕ) (hv : 0 < v)
    (hw : 0 < w) : localMean (constImg rows cols v) w r c = v := by
  unfold localMean
  rw [countPositive_const rows cols v w r c hv hw,
    sumPositive_const rows cols v w r c hv hw]
  norm_num

theorem localVar_const (rows cols : ℕ) (v : ℚ) (w r c : ℕ) (hv : 0 < v)
    (hw : 0 < w) : localVar (constImg rows cols v) w r c = 0 := by
  unfold localVar
  rw [countPositive_const rows cols v w r c hv hw,
    sumSquares_const rows cols v w r c hv hw,
    localMean_const rows cols v w r c hv hw]
  norm_num

theorem detect_const_false (rows cols : ℕ) (v σ : ℚ) (w : ℕ)
    (minI : ℚ) (r c : ℕ) (hv : 0 < v) (hσ : 0 ≤ σ) (hw : 0 < w) :
    detect_cosmic_rays (constImg rows cols v) σ w minI r c = false := by
  have hvar := localVar_const rows cols v w r c hv hw
  have hmean := localMean_const rows cols v w r c hv hw
  have hvalid : validAt (constImg rows cols v) w r c = false := by
    unfold validAt
    rw [hvar]
    simp
  have hzf : zFlag (constImg rows cols v) σ w r c = false := by
    unfold zFlag
    rw [hvalid]
    have hns : ¬ ((0 : ℚ) > σ) := not_lt.mpr hσ
    simp [hns]
  have hint : vGt ((constImg rows cols v).val r c)
      (2 * localMean (constImg rows cols v) w r c) = false := by
    rw [hmean]
    have hlt : ¬ (2 * v < v) := by linarith
    show vGt (some v) (2 * v) = false
    simp [vGt, hlt]
  unfold detect_cosmic_rays
  rw [hzf, hint]
  simp

/-- C5 (amended): for every constant image of strictly positive value, every
`sigma ≥ 0`, every window size `w ≥ 1` and every `min_intensity`, the
detector returns an all-false mask: the local variance is 0 so the z-score is
forced to 0 and fails `0 > sigma`, and the intensity rule fails since the
value equals the local mean. -/
theorem c5_constant_image_all_false (rows cols : ℕ) (v σ : ℚ) (w : ℕ)
    (minI : ℚ) (r c : ℕ) (hv : 0 < v) (hσ : 0 ≤ σ) (hw : 0 < w) :
    detect_cosmic_rays (constImg rows cols v) σ w minI r c = false :=
  detect_const_false rows cols v σ w minI r c hv hσ hw

/-- Witness for the amended C5 at a concrete instance. -/
theorem c5_constant_image_all_false_witness :
    (0 : ℚ) < 10 ∧ (0 : ℚ) ≤ 3 ∧ (0 : ℕ) < 3 ∧
      detect_cosmic_rays (constImg 2 2 10) 3 3 0 1 1 = false :=
  ⟨by norm_num, by norm_num, by norm_num,
    c5_constant_image_all_false 2 2 10 3 3 0 1 1 (by norm_num) (by norm_num)
      (by norm_num)⟩

/-- C5 as literally stated ("for every sigma") is false: with a negative
`sigma`, the z-score forced to 0 at a zero-variance pixel satisfies
`0 > sigma`, so the detector flags a constant positive pixel. -/
theorem c5_negative_sigma_counterexample :
    (0 : ℚ) < 1 ∧ detect_cosmic_rays (constImg 1 1 1) (-1) 1 0 0 0 = true := by
  refine ⟨by norm_num, ?_⟩
  have hvar := localVar_const 1 1 1 1 0 0 (by norm_num) (by norm_num)
  have hvalid : validAt (constImg 1 1 1) 1 0 0 = false := by
    unfold validAt
    rw [hvar]
    simp
  have hzf : zFlag (constImg 1 1 1) (-1) 1 0 0 = true := by
    unfold zFlag
    rw [hvalid]
    norm_num
  have hpos : isPos ((constImg 1 1 1).val 0 0) = true := by
    show isPos (some 1) = true
    simp [isPos]
  have hmin : vGt ((constImg 1 1 1).val 0 0) 0 = true := by
    show vGt (some 1) 0 = true
    simp [vGt]
  unfold detect_cosmic_rays
  rw [hzf, hpos, hmin]
  simp

/-! ### The combiner -/

theorem combine_ok (imgs : List Image) (σ : ℚ) (w iters : ℕ) (minI : ℚ)
    (h0 : 0 < imgs.length) (_hsh : sameShapes imgs = true) :
    combine_images_in_directory imgs σ w iters minI =
      (combineLog imgs σ w iters minI,
        Except.ok (combineOut imgs σ w iters minI)) := by
  unfold combine_images_in_directory
  rw [if_neg (by omega)]

theorem outputAt_ok (log : List (List ℕ)) (im : Image) (r c : ℕ) :
    outputAt (log, Except.ok im) r c = some (im.val r c) := rfl

theorem groupProc_val_of_not_flagged (imgs : List Image) (σ : ℚ)
    (w iters : ℕ) (minI : ℚ) (i r c : ℕ)
    (h : groupMask imgs σ w iters minI i r c = false) :
    (groupProc imgs σ w iters minI i).image.val r c =
      (imgs.getD i dfltImg).val r c := by
  unfold groupProc
  have h' : (iterState (imgs.getD i dfltImg) σ w minI iters).mask r c = false := h
  rw [iterState_image_val, if_neg (by rw [h']; simp)]

theorem combine_unflagged_sum (imgs : List Image) (σ : ℚ) (w iters : ℕ)
    (minI : ℚ) (r c : ℕ) (h0 : 0 < imgs.length)
    (hsh : sameShapes imgs = true)
    (hm : ∀ i, i < imgs.length → groupMask imgs σ w iters minI i r c = false) :
    outputAt (combine_images_in_directory imgs σ w iters minI) r c =
      some (sumV (imgs.map fun im => im.val r c)) := by
  rw [combine_ok imgs σ w iters minI h0 hsh, outputAt_ok]
  congr 1
  show sumV ((List.range imgs.length).map
      fun i => outVal imgs σ w iters minI i r c) = _
  congr 1
  rw [← map_range_getD imgs dfltImg (fun im => im.val r c)]
  apply List.map_congr_left
  intro i hi
  have hi' : i < imgs.length := List.mem_range.mp hi
  have hmi := hm i hi'
  unfold outVal
  simp only [hmi]
  simp [groupProc_val_of_not_flagged imgs σ w iters minI i r c hmi]

theorem combine_all_flagged_nan (imgs : List Image) (σ : ℚ) (w iters : ℕ)
    (minI : ℚ) (r c : ℕ) (h2 : 2 ≤ imgs.length)
    (hsh : sameShapes imgs = true)
    (hm : ∀ i, i < imgs.length → groupMask imgs σ w iters minI i r c = true) :
    outputAt (combine_images_in_directory imgs σ w iters minI) r c =
      some none := by
  rw [combine_ok imgs σ w iters minI (by omega) hsh, outputAt_ok]
  congr 1
  show sumV ((List.range imgs.length).map
      fun i => outVal imgs σ w iters minI i r c) = none
  apply sumV_of_mem_none
  refine List.mem_map.mpr ⟨0, List.mem_range.mpr (by omega), ?_⟩
  have h0 := hm 0 (by omega)
  have h1 : 1 < imgs.length := by omega
  have hsub : substVal imgs σ w iters minI 0 r c = none := by
    unfold substVal
    apply nanmean_all_none
    intro vv hvv
    obtain ⟨j, hj, rfl⟩ := List.mem_map.mp hvv
    obtain ⟨hjr, _⟩ := List.mem_filter.mp hj
    have hjlt := List.mem_range.mp hjr
    unfold groupNanVal
    simp [hm j hjlt]
  unfold outVal
  simp [h0, h1, hsub]

theorem combine_single_spike (imgs : List Image) (σ : ℚ) (w iters : ℕ)
    (minI : ℚ) (i₀ r c : ℕ) (X : ℚ) (h2 : 2 ≤ imgs.length)
    (hsh : sameShapes imgs = true) (hi : i₀ < imgs.length)
    (hflag : groupMask imgs σ w iters minI i₀ r c = true)
    (hothers : ∀ j, j < imgs.length → j ≠ i₀ →
      groupMask imgs σ w iters minI j r c = false ∧
        (imgs.getD j dfltImg).val r c = some X) :
    substVal imgs σ w iters minI i₀ r c = some X ∧
      outputAt (combine_images_in_directory imgs σ w iters minI) r c =
        some (some ((imgs.length : ℚ) * X)) := by
  have h1 : 1 < imgs.length := by omega
  have hsub : substVal imgs σ w iters minI i₀ r c = some X := by
    unfold substVal
    apply nanmean_all_some
    · intro vv hvv
      obtain ⟨j, hj, rfl⟩ := List.mem_map.mp hvv
      obtain ⟨hjr, hjne⟩ := List.mem_filter.mp hj
      have hjlt := List.mem_range.mp hjr
      have hjne' : j ≠ i₀ := by simpa using hjne
      obtain ⟨hmj, hvj⟩ := hothers j hjlt hjne'
      unfold groupNanVal
      rw [hmj, if_neg (by simp),
        groupProc_val_of_not_flagged imgs σ w iters minI j r c hmj]
      exact hvj
    · have hmem : (if i₀ = 0 then 1 else 0) ∈
          ((List.range imgs.length).filter fun j => j ≠ i₀) := by
        by_cases h : i₀ = 0 <;>
          simp [h, List.mem_filter, List.mem_range] <;> omega
      intro hnil
      exact List.ne_nil_of_mem hmem (List.map_eq_nil_iff.mp hnil)
  refine ⟨hsub, ?_⟩
  rw [combine_ok imgs σ w iters minI (by omega) hsh, outputAt_ok]
  congr 1
  show sumV ((List.range imgs.length).map
      fun i => outVal imgs σ w iters minI i r c) = _
  have hall : ∀ vv ∈ (List.range imgs.length).map
      (fun i => outVal imgs σ w iters minI i r c), vv = some X := by
    intro vv hvv
    obtain ⟨i, hi', rfl⟩ := List.mem_map.mp hvv
    have hilt := List.mem_range.mp hi'
    by_cases h : i = i₀
    · subst h
      unfold outVal
      simp [hflag, h1, hsub]
    · obtain ⟨hmj, hvj⟩ := hothers i hilt h
      unfold outVal
      rw [hmj, if_neg (by simp),
        groupProc_val_of_not_flagged imgs σ w iters minI i r c hmj]
      exact hvj
  rw [sumV_all_some hall]
  simp

/-! ### Concrete evaluations -/

theorem localMean_spike00 : localMean spikeImg 3 0 0 = 45 := by
  norm_num [localMean, countPositive, sumPositive, windowSum, spikeImg,
    reflectIdx, List.range_succ, isPos, posQ]

theorem detect_spike00 : detect_cosmic_rays spikeImg 3 3 0 0 0 = true := by
  have hμ := localMean_spike00
  have hpos : isPos (spikeImg.val 0 0) = true := by
    show decide ((0 : ℚ) < 100) = true
    exact decide_eq_true (by norm_num)
  have hmin : vGt (spikeImg.val 0 0) 0 = true := by
    show decide ((0 : ℚ) < 100) = true
    exact decide_eq_true (by norm_num)
  have hint : vGt (spikeImg.val 0 0) (2 * localMean spikeImg 3 0 0) = true := by
    rw [hμ]
    show decide ((2 * (45 : ℚ)) < 100) = true
    exact decide_eq_true (by norm_num)
  unfold detect_cosmic_rays
  rw [hint, hpos, hmin]
  simp

theorem groupMask_spike_pair (i : ℕ) (hi : i < 2) :
    groupMask [spikeImg, spikeImg] 3 3 1 0 i 0 0 = true := by
  interval_cases i
  · rw [show groupMask [spikeImg, spikeImg] 3 3 1 0 0 0 0 =
      (false || detect_cosmic_rays spikeImg 3 3 0 0 0) from rfl, detect_spike00]; rfl
  · rw [show groupMask [spikeImg, spikeImg] 3 3 1 0 1 0 0 =
      (false || detect_cosmic_rays spikeImg 3 3 0 0 0) from rfl, detect_spike00]; rfl

theorem detect_flat00 : detect_cosmic_rays flatImg 3 3 0 0 0 = false :=
  detect_const_false 2 2 10 3 3 0 0 0 (by norm_num) (by norm_num) (by norm_num)

theorem groupMask_flat_pair (i : ℕ) (hi : i < 2) :
    groupMask [flatImg, flatImg] 3 3 1 0 i 0 0 = false := by
  interval_cases i
  · rw [show groupMask [flatImg, flatImg] 3 3 1 0 0 0 0 =
      (false || detect_cosmic_rays flatImg 3 3 0 0 0) from rfl, detect_flat00]; rfl
  · rw [show groupMask [flatImg, flatImg] 3 3 1 0 1 0 0 =
      (false || detect_cosmic_rays flatImg 3 3 0 0 0) from rfl, detect_flat00]; rfl

/-! ### The claims about the combiner -/

/-- C1 (code bug): for the single-image group containing `spikeImg`, whose
pixel (0,0) the detector flags, the combined output at (0,0) is NaN rather
than the original value 100: `get_cosmic_mask` NaN'd `imgs_data[0]` in
place, and the `len == 1` branch — commented "Use original value if only one
image" — re-reads that already-mutated array. -/
theorem c1_single_image_group_nan :
    groupMask [spikeImg] 3 3 1 0 0 0 0 = true ∧
      outputAt (combine_images_in_directory [spikeImg] 3 3 1 0) 0 0 =
        some none ∧
      spikeImg.val 0 0 = some 100 := by
  have hmask : groupMask [spikeImg] 3 3 1 0 0 0 0 = true := by
    rw [show groupMask [spikeImg] 3 3 1 0 0 0 0 =
      (false || detect_cosmic_rays spikeImg 3 3 0 0 0) from rfl, detect_spike00]; rfl
  refine ⟨hmask, ?_, rfl⟩
  rw [combine_ok [spikeImg] 3 3 1 0 (by simp) rfl, outputAt_ok]
  congr 1
  show sumV ((List.range 1).map fun i => outVal [spikeImg] 3 3 1 0 i 0 0) = none
  rw [show (List.range 1) = [0] from rfl, List.map_cons, List.map_nil]
  have hov : outVal [spikeImg] 3 3 1 0 0 0 0 = none := by
    unfold outVal
    rw [hmask, if_pos rfl, if_neg (by simp)]
    have hval : (iterState spikeImg 3 3 0 1).image.val 0 0 =
        (if detect_cosmic_rays spikeImg 3 3 0 0 0 = true then none
          else spikeImg.val 0 0) := rfl
    show (iterState spikeImg 3 3 0 1).image.val 0 0 = none
    rw [hval, detect_spike00, if_pos rfl]
  rw [hov]
  rfl

/-- C2 as stated is false: with two copies of `spikeImg`, both masks flag
(0,0), the cross-image mean there is over an empty set, and the combined
output at (0,0) is NaN — not the sum 200 of the original values. -/
theorem c2_all_flagged_counterexample :
    (∀ i, i < 2 → groupMask [spikeImg, spikeImg] 3 3 1 0 i 0 0 = true) ∧
      outputAt (combine_images_in_directory [spikeImg, spikeImg] 3 3 1 0) 0 0 =
        some none ∧
      sumV ([spikeImg, spikeImg].map fun im => im.val 0 0) = some 200 := by
  refine ⟨groupMask_spike_pair, ?_, ?_⟩
  · exact combine_all_flagged_nan [spikeImg, spikeImg] 3 3 1 0 0 0 (by simp)
      rfl (fun i hi => groupMask_spike_pair i hi)
  · rw [show sumV ([spikeImg, spikeImg].map fun im => im.val 0 0) =
      some ((100 : ℚ) + (100 + 0)) from rfl]
    norm_num

/-- C2 (amended): at a pixel flagged in every image of a group of two or
more same-shaped images, the cross-image mean is taken over an empty set and
yields NaN, which propagates through the sum: the combined output at that
pixel is NaN (the code has no fallback to the original value). -/
theorem c2_every_image_flagged_nan (imgs : List Image) (σ : ℚ) (w iters : ℕ)
    (minI : ℚ) (r c : ℕ) (h2 : 2 ≤ imgs.length)
    (hsh : sameShapes imgs = true)
    (hm : ∀ i, i < imgs.length → groupMask imgs σ w iters minI i r c = true) :
    outputAt (combine_images_in_directory imgs σ w iters minI) r c =
      some none :=
  combine_all_flagged_nan imgs σ w iters minI r c h2 hsh hm

/-- Witness for the amended C2 at a concrete instance. -/
theorem c2_every_image_flagged_nan_witness :
    2 ≤ ([spikeImg, spikeImg] : List Image).length ∧
      sameShapes [spikeImg, spikeImg] = true ∧
      (∀ i, i < ([spikeImg, spikeImg] : List Image).length →
        groupMask [spikeImg, spikeImg] 3 3 1 0 i 0 0 = true) ∧
      outputAt (combine_images_in_directory [spikeImg, spikeImg] 3 3 1 0) 0 0 =
        some none :=
  ⟨by simp, rfl, fun i hi => groupMask_spike_pair i hi,
    c2_every_image_flagged_nan [spikeImg, spikeImg] 3 3 1 0 0 0 (by simp) rfl
      (fun i hi => groupMask_spike_pair i hi)⟩

/-- C3: in a group of `N ≥ 2` same-shaped images where exactly one image is
flagged at `(r, c)` and the other `N − 1` images are unflagged there with the
common value `X`, the substituted value for the flagged image at `(r, c)` is
exactly `X` and the combined output there is `N · X`. -/
theorem c3_single_spike_corrected (imgs : List Image) (σ : ℚ) (w iters : ℕ)
    (minI : ℚ) (i₀ r c : ℕ) (X : ℚ) (h2 : 2 ≤ imgs.length)
    (hsh : sameShapes imgs = true) (hi : i₀ < imgs.length)
    (hflag : groupMask imgs σ w iters minI i₀ r c = true)
    (hothers : ∀ j, j < imgs.length → j ≠ i₀ →
      groupMask imgs σ w iters minI j r c = false ∧
        (imgs.getD j dfltImg).val r c = some X) :
    substVal imgs σ w iters minI i₀ r c = some X ∧
      outputAt (combine_images_in_directory imgs σ w iters minI) r c =
        some (some ((imgs.length : ℚ) * X)) :=
  combine_single_spike imgs σ w iters minI i₀ r c X h2 hsh hi hflag hothers

theorem groupMask_mixed (j : ℕ) (hj : j < 3) (hne : j ≠ 0) :
    groupMask [spikeImg, flatImg, flatImg] 3 3 1 0 j 0 0 = false ∧
      (([spikeImg, flatImg, flatImg] : List Image).getD j dfltImg).val 0 0 =
        some 10 := by
  interval_cases j
  · exact absurd rfl hne
  · refine ⟨?_, rfl⟩
    rw [show groupMask [spikeImg, flatImg, flatImg] 3 3 1 0 1 0 0 =
      (false || detect_cosmic_rays flatImg 3 3 0 0 0) from rfl, detect_flat00]; rfl
  · refine ⟨?_, rfl⟩
    rw [show groupMask [spikeImg, flatImg, flatImg] 3 3 1 0 2 0 0 =
      (false || detect_cosmic_rays flatImg 3 3 0 0 0) from rfl, detect_flat00]; rfl

/-- Witness for C3 at a concrete instance: one spiked image and two flat
images of value 10. -/
theorem c3_single_spike_corrected_witness :
    2 ≤ ([spikeImg, flatImg, flatImg] : List Image).length ∧
      sameShapes [spikeImg, flatImg, flatImg] = true ∧
      0 < ([spikeImg, flatImg, flatImg] : List Image).length ∧
      groupMask [spikeImg, flatImg, flatImg] 3 3 1 0 0 0 0 = true ∧
      (substVal [spikeImg, flatImg, flatImg] 3 3 1 0 0 0 0 = some 10 ∧
        outputAt
            (combine_images_in_directory [spikeImg, flatImg, flatImg] 3 3 1 0)
            0 0 =
          some (some ((([spikeImg, flatImg, flatImg] : List Image).length : ℚ)
            * 10))) := by
  have hflag : groupMask [spikeImg, flatImg, flatImg] 3 3 1 0 0 0 0 = true := by
    rw [show groupMask [spikeImg, flatImg, flatImg] 3 3 1 0 0 0 0 =
      (false || detect_cosmic_rays spikeImg 3 3 0 0 0) from rfl, detect_spike00]; rfl
  exact ⟨by simp, rfl, by simp, hflag,
    c3_single_spike_corrected [spikeImg, flatImg, flatImg] 3 3 1 0 0 0 0 10
      (by simp) rfl (by simp) hflag (fun j hj hne => groupMask_mixed j hj hne)⟩

theorem detect_tiny_all_false (r c : ℕ) :
    detect_cosmic_rays tinyImg 3 3 0 r c = false :=
  detect_const_false 1 1 10 3 3 0 r c (by norm_num) (by norm_num) (by norm_num)

theorem detect_flat_all_false (r c : ℕ) :
    detect_cosmic_rays flatImg 3 3 0 r c = false :=
  detect_const_false 2 2 10 3 3 0 r c (by norm_num) (by norm_num) (by norm_num)

theorem combineLog_mismatch_eval :
    combineLog [tinyImg, flatImg] 3 3 1 0 = [[0], [0]] := by
  have e0 : (groupProc [tinyImg, flatImg] 3 3 1 0 0).counts =
      [maskCount (detect_cosmic_rays tinyImg 3 3 0) 1 1] := rfl
  have e1 : (groupProc [tinyImg, flatImg] 3 3 1 0 1).counts =
      [maskCount (detect_cosmic_rays flatImg 3 3 0) 2 2] := rfl
  have m0 : maskCount (detect_cosmic_rays tinyImg 3 3 0) 1 1 = 0 := by
    simp [maskCount, List.range_succ, detect_tiny_all_false]
  have m1 : maskCount (detect_cosmic_rays flatImg 3 3 0) 2 2 = 0 := by
    simp [maskCount, List.range_succ, detect_flat_all_false]
  unfold combineLog
  rw [show List.range ([tinyImg, flatImg] : List Image).length = [0, 1] from rfl,
    List.map_cons, List.map_cons, List.map_nil, e0, e1, m0, m1]

/-- C7 as stated is false for shape mismatches: on this mismatched two-image
group the call does not fail up front with an input error — per-image
detection runs first, and the diagnostic log comes back non-empty, with one
count list per image (here 0 detections in each), exactly as the source
prints the counts before the combination step. -/
theorem c7_shape_mismatch_counterexample :
    sameShapes [tinyImg, flatImg] = false ∧
      (combine_images_in_directory [tinyImg, flatImg] 3 3 1 0).1 = [[0], [0]] ∧
      (combine_images_in_directory [tinyImg, flatImg] 3 3 1 0).1 ≠ [] := by
  have h1 : (combine_images_in_directory [tinyImg, flatImg] 3 3 1 0).1 =
      combineLog [tinyImg, flatImg] 3 3 1 0 := by
    unfold combine_images_in_directory
    rw [if_neg (by simp)]
  refine ⟨rfl, ?_, ?_⟩
  · rw [h1, combineLog_mismatch_eval]
  · rw [h1, combineLog_mismatch_eval]
    simp

/-- C7 (amended): an empty group fails immediately with the no-files input
error and an empty diagnostic log; the shape precondition, however, is never
validated — a group of two or more differently-shaped images is not rejected
up front: per-image cosmic-ray detection proceeds, and the diagnostic log
carries one count list per image.  (What the combination arithmetic then
does with the mismatched arrays is numpy broadcasting, outside the model;
for broadcast-compatible shapes the source silently returns a wrong-shape
sum.) -/
theorem c7_empty_checked_shapes_not (imgs : List Image) (σ : ℚ)
    (w iters : ℕ) (minI : ℚ) (h2 : 2 ≤ imgs.length)
    (_hsh : sameShapes imgs = false) :
    combine_images_in_directory [] σ w iters minI =
        ([], Except.error CombineErr.noFiles) ∧
      (combine_images_in_directory imgs σ w iters minI).1 =
        combineLog imgs σ w iters minI ∧
      (combineLog imgs σ w iters minI).length = imgs.length := by
  refine ⟨rfl, ?_, ?_⟩
  · unfold combine_images_in_directory
    rw [if_neg (by omega)]
  · unfold combineLog
    simp

/-- Witness for the amended C7 at a concrete instance. -/
theorem c7_empty_checked_shapes_not_witness :
    2 ≤ ([tinyImg, flatImg] : List Image).length ∧
      sameShapes [tinyImg, flatImg] = false ∧
      (combine_images_in_directory [] (3 : ℚ) 3 1 0 =
          ([], Except.error CombineErr.noFiles) ∧
        (combine_images_in_directory [tinyImg, flatImg] 3 3 1 0).1 =
          combineLog [tinyImg, flatImg] 3 3 1 0 ∧
        (combineLog [tinyImg, flatImg] 3 3 1 0).length =
          ([tinyImg, flatImg] : List Image).length) :=
  ⟨by simp, rfl,
    c7_empty_checked_shapes_not [tinyImg, flatImg] 3 3 1 0 (by simp) rfl⟩

/-- C8: at a pixel flagged by no image of the group, the combined output is
the elementwise sum of the original input images at that pixel: substitution
touches only flagged pixels. -/
theorem c8_unflagged_passthrough (imgs : List Image) (σ : ℚ) (w iters : ℕ)
    (minI : ℚ) (r c : ℕ) (h0 : 0 < imgs.length)
    (hsh : sameShapes imgs = true)
    (hm : ∀ i, i < imgs.length → groupMask imgs σ w iters minI i r c = false) :
    outputAt (combine_images_in_directory imgs σ w iters minI) r c =
      some (sumV (imgs.map fun im => im.val r c)) :=
  combine_unflagged_sum imgs σ w iters minI r c h0 hsh hm

/-- Witness for C8 at a concrete instance. -/
theorem c8_unflagged_passthrough_witness :
    0 < ([flatImg, flatImg] : List Image).length ∧
      sameShapes [flatImg, flatImg] = true ∧
      (∀ i, i < ([flatImg, flatImg] : List Image).length →
        groupMask [flatImg, flatImg] 3 3 1 0 i 0 0 = false) ∧
      outputAt (combine_images_in_directory [flatImg, flatImg] 3 3 1 0) 0 0 =
        some (sumV ([flatImg, flatImg].map fun im => im.val 0 0)) :=
  ⟨by simp, rfl, fun i hi => groupMask_flat_pair i hi,
    c8_unflagged_passthrough [flatImg, flatImg] 3 3 1 0 0 0 (by simp) rfl
      (fun i hi => groupMask_flat_pair i hi)⟩
